import Mathlib

/-!
Verification of the breakpad language/demangling layer (`common/language.cc`)
and of `client/linux/handler/backtrace_handler.cc`.

External native decoders (`abi::__cxa_demangle`, `rust_demangle`) are modelled
as oracle parameters of type `String → Option String`: `some s` stands for a
successful call (status 0 / non-null pointer) returning the C string `s`, and
`none` stands for a failed call (non-zero status / null pointer).

Each `DemangleName` operation takes the prior contents of the caller-supplied
output buffer (`demangled`) and returns the pair (result, final buffer
contents), which models the C++ out-parameter `string* demangled`.
-/

/-- The three-valued demangle outcome from `common/language.h`:
`kDemangleSuccess`, `kDemangleFailure`, `kDontDemangle` (= Unsupported). -/
inductive DemangleResult where
  | kDemangleSuccess
  | kDemangleFailure
  | kDontDemangle
  deriving DecidableEq, Repr

open DemangleResult

/-- The fixed escape table of `rust_replace_dollar` (language.cc lines
148-172), as a function from the token string to the mapped character. -/
def escapeTable : String → Option Char
  | "C" => some ','
  | "SP" => some '@'
  | "BP" => some '*'
  | "RF" => some '&'
  | "LT" => some '<'
  | "GT" => some '>'
  | "LP" => some '('
  | "RP" => some ')'
  | "u20" => some ' '
  | "u22" => some '\\'
  | "u27" => some (Char.ofNat 39)
  | "u2b" => some '+'
  | "u3b" => some ';'
  | "u5b" => some '['
  | "u5d" => some ']'
  | "u7b" => some '\x7b'
  | "u7d" => some '\x7d'
  | "u7e" => some '~'
  | _ => none

/-- `rust_replace_dollar(it, eit, o)` from language.cc lines 146-186, applied
to the character list `l` = the range `[it, eit)`.  It finds the next `'$'`
(`std::find`); if none exists it fails; otherwise the characters before it
form the token, which is looked up in the escape table; on a hit the mapped
character is emitted.  `some c` models `return true` having emitted `c`;
`none` models `return false`.  (The iterator is passed by value, so the
caller's position is not advanced by this call.) -/
def rust_replace_dollar (l : List Char) : Option Char :=
  if (l.takeWhile (fun c => c ≠ '$')).length = l.length then
    none
  else
    escapeTable (String.mk (l.takeWhile (fun c => c ≠ '$')))

/-- `rust_scan_replace(s, o)` from language.cc lines 188-212.  Walks the
string left to right: `'_'` hits the `case '_': break` arm (no character is
emitted); `'$'` advances one position (failing at end of string) and calls
`rust_replace_dollar` from that position (failing if it returns false), after
which the loop's `advance(it, 1)` resumes the scan at the position after the
first token character; any other character is emitted unchanged.  `some out`
models `return true` with `o.str() = out`; `none` models the `fail:` exit. -/
def rust_scan_replace : List Char → Option (List Char)
  | [] => some []
  | c :: rest =>
    if c = '_' then
      rust_scan_replace rest
    else if c = '$' then
      match rest with
      | [] => none
      | _ :: rest2 =>
        match rust_replace_dollar rest with
        | none => none
        | some ch => Option.map (fun l => ch :: l) (rust_scan_replace rest2)
    else
      Option.map (fun l => c :: l) (rust_scan_replace rest)

/-- The character class `[a-zA-Z0-9_.:$]` of the first group of the regex in
`RustLanguage::DemangleName` (language.cc line 239). -/
def isIdentChar (c : Char) : Bool :=
  ('a' ≤ c && c ≤ 'z') || ('A' ≤ c && c ≤ 'Z') || ('0' ≤ c && c ≤ '9') ||
    c == '_' || c == '.' || c == ':' || c == '$'

/-- The character class `[a-f0-9]` of the second group of the regex in
`RustLanguage::DemangleName` (language.cc line 239). -/
def isLowerHex (c : Char) : Bool :=
  ('a' ≤ c && c ≤ 'f') || ('0' ≤ c && c ≤ '9')

/-- `regex_match(rd, sm, re)` for the anchored ECMAScript regex
`(^[a-zA-Z0-9_.:$]+)::h([a-f0-9]{16})$` (language.cc lines 239-241, 253),
returning `sm.str(1)` (the captured first group) on a match.  Because the
tail `::h` plus exactly 16 hex characters is anchored at the end of the
string, a match decomposes the subject uniquely: the last 16 characters are
the hash, the 3 before them are the literal `::h`, and everything before
that (at least one character, all from the first class) is group 1. -/
def rust_match (l : List Char) : Option (List Char) :=
  if 20 ≤ l.length && (l.take (l.length - 19)).all isIdentChar &&
      ((l.drop (l.length - 19)).take 3 == [':', ':', 'h']) &&
      ((l.drop (l.length - 19)).drop 3).all isLowerHex then
    some (l.take (l.length - 19))
  else
    none

/-- The structural pattern stated by the spec for the intermediate string of
the Rust fallback path: one or more characters drawn from
letters/digits/underscore/'.'/':'/'$', followed by the literal `::h`,
followed by exactly 16 lowercase hexadecimal digits, anchored at both ends.
Stated as a plain decomposition, to be compared with `rust_match`. -/
def RustIntermediatePattern (l : List Char) : Prop :=
  ∃ p h : List Char, l = p ++ [':', ':', 'h'] ++ h ∧ p ≠ [] ∧
    (∀ c ∈ p, isIdentChar c = true) ∧ h.length = 16 ∧
    (∀ c ∈ h, isLowerHex c = true)

/-- `MakeQualifiedNameWithSeparator` (language.cc lines 54-62). -/
def MakeQualifiedNameWithSeparator (parent_name : String) (separator : String)
    (name : String) : String :=
  if parent_name = "" then
    name
  else
    parent_name ++ separator ++ name

/-- `CPPLanguage::MakeQualifiedName` (language.cc lines 73-76). -/
def CPPLanguage.MakeQualifiedName (parent_name name : String) : String :=
  MakeQualifiedNameWithSeparator parent_name "::" name

/-- `JavaLanguage::MakeQualifiedName` (language.cc lines 114-117). -/
def JavaLanguage.MakeQualifiedName (parent_name name : String) : String :=
  MakeQualifiedNameWithSeparator parent_name "." name

/-- `SwiftLanguage::MakeQualifiedName` (language.cc lines 127-130). -/
def SwiftLanguage.MakeQualifiedName (parent_name name : String) : String :=
  MakeQualifiedNameWithSeparator parent_name "." name

/-- `RustLanguage::MakeQualifiedName` (language.cc lines 219-222). -/
def RustLanguage.MakeQualifiedName (parent_name name : String) : String :=
  MakeQualifiedNameWithSeparator parent_name "." name

/-- `AssemblerLanguage::MakeQualifiedName` (language.cc lines 274-277):
returns the leaf name, ignoring the parent. -/
def AssemblerLanguage.MakeQualifiedName (parent_name name : String) : String :=
  name

/-- `CPPLanguage::DemangleName` on `__ANDROID__` builds (language.cc lines
80-83): the NDK lacks `abi::__cxa_demangle`, so the output is cleared and
`kDontDemangle` is returned. -/
def CPPLanguage.DemangleNameAndroid (mangled demangled : String) :
    DemangleResult × String :=
  (kDontDemangle, "")

/-- `CPPLanguage::DemangleName` on regular builds (language.cc lines 84-103),
with `abi::__cxa_demangle` as the oracle `cxa` (`some s` = status 0 with
result `s`; `none` = non-zero status).  Status 0 assigns the decoded string;
otherwise the output is cleared. -/
def CPPLanguage.DemangleName (cxa : String → Option String)
    (mangled demangled : String) : DemangleResult × String :=
  match cxa mangled with
  | some s => (kDemangleSuccess, s)
  | none => (kDemangleFailure, "")

/-- `SwiftLanguage::DemangleName` (language.cc lines 132-141): assigns the
mangled input to the output and returns `kDemangleSuccess`. -/
def SwiftLanguage.DemangleName (mangled demangled : String) :
    DemangleResult × String :=
  (kDemangleSuccess, mangled)

/-- `RustLanguage::DemangleName` under `HAVE_RUST_DEMANGLE` (language.cc
lines 230-237), with `rust_demangle` as the oracle (`none` = null pointer).
On a null return it returns `kDemangleFailure` WITHOUT touching the output
buffer (no `demangled->clear()` on this path); otherwise it assigns the
returned string and reports success. -/
def RustLanguage.DemangleNameWithRustDemangle
    (rust_demangle : String → Option String) (mangled demangled : String) :
    DemangleResult × String :=
  match rust_demangle mangled with
  | none => (kDemangleFailure, demangled)
  | some s => (kDemangleSuccess, s)

/-- `RustLanguage::DemangleName` fallback path (language.cc lines 238-262):
clear the output, run `abi::__cxa_demangle` (oracle `cxa`), on non-zero
status fail; match the result against the regex, on mismatch fail; run
`rust_scan_replace` on the captured group 1, on failure fail; otherwise
assign the accumulated output and report success. -/
def RustLanguage.DemangleName (cxa : String → Option String)
    (mangled demangled : String) : DemangleResult × String :=
  match cxa mangled with
  | none => (kDemangleFailure, "")
  | some rd =>
    match rust_match rd.data with
    | none => (kDemangleFailure, "")
    | some p =>
      match rust_scan_replace p with
      | none => (kDemangleFailure, "")
      | some out => (kDemangleSuccess, String.mk out)

/-- Modelled from the spec: the demangle operation of the variants that do
not override it (Java, Assembler) — the base-class `Language::DemangleName`
lives in `common/language.h`, which is not part of the sources here.  The
spec says demangling is "not applicable" for these variants and that the
output buffer must be empty on every non-Success outcome, so the default
reports Unsupported with an empty output. -/
def Language.DemangleNameDefault (mangled demangled : String) :
    DemangleResult × String :=
  (kDontDemangle, "")

/-- The global context installed by `BacktraceHandler::Init`
(backtrace_handler.cc lines 20-37): the data it is constructed from. -/
structure BacktraceHandlerContext where
  url_ : String
  token_ : String
  attributes_ : List (String × String)
  deriving DecidableEq, Repr

/-- `BacktraceHandler::Init` (backtrace_handler.cc lines 101-108) acting on
the global `ctx_` pointer (line 41), modelled as explicit state: if a
context is already installed, return false and leave it; otherwise install a
new context built from the arguments and return true. -/
def BacktraceHandler.Init (url token : String)
    (attributes : List (String × String))
    (ctx : Option BacktraceHandlerContext) :
    Bool × Option BacktraceHandlerContext :=
  match ctx with
  | some c => (false, some c)
  | none => (true, some ⟨url, token, attributes⟩)

/-! ## Unfolding lemmas for `rust_scan_replace` -/

theorem scan_nil : rust_scan_replace [] = some [] := rfl

theorem scan_cons_underscore (rest : List Char) :
    rust_scan_replace ('_' :: rest) = rust_scan_replace rest := by
  rw [rust_scan_replace.eq_def]
  simp

theorem scan_dollar_nil : rust_scan_replace ['$'] = none := rfl

theorem scan_dollar_cons (r1 : Char) (rest2 : List Char) :
    rust_scan_replace ('$' :: r1 :: rest2) =
      match rust_replace_dollar (r1 :: rest2) with
      | none => none
      | some ch => Option.map (fun l => ch :: l) (rust_scan_replace rest2) := rfl

theorem scan_cons_default {c : Char} (h1 : c ≠ '_') (h2 : c ≠ '$')
    (rest : List Char) :
    rust_scan_replace (c :: rest) =
      Option.map (fun l => c :: l) (rust_scan_replace rest) := by
  rw [rust_scan_replace.eq_def]
  simp only [if_neg h1, if_neg h2]

theorem escapeTable_mk_nil : escapeTable (String.mk []) = none := rfl

/-- The guard of `rust_replace_dollar` (`std::find` hit `eit`): the run of
non-`'$'` characters is the whole list exactly when no `'$'` occurs. -/
theorem takeWhile_length_eq_iff (l : List Char) :
    ((l.takeWhile (fun c => c ≠ '$')).length = l.length) ↔ '$' ∉ l := by
  induction l with
  | nil => simp
  | cons c rest ih =>
    simp only [decide_not] at ih ⊢
    by_cases hc : c = '$'
    · subst hc
      simp [List.takeWhile_cons]
    · simp [List.takeWhile_cons, hc, ih, Ne.symm hc]

/-- A successful `rust_replace_dollar` call means the token is nonempty (its
first character is the head of the range) and a closing `'$'` occurs after
that first character. -/
theorem rust_replace_dollar_some_mem {r1 : Char} {rest2 : List Char}
    {ch : Char} (h : rust_replace_dollar (r1 :: rest2) = some ch) :
    '$' ∈ rest2 := by
  by_cases hr : r1 = '$'
  · subst hr
    unfold rust_replace_dollar at h
    have htw : List.takeWhile (fun c => c ≠ '$') ('$' :: rest2) = [] := by
      simp [List.takeWhile_cons]
    rw [htw] at h
    split at h
    · exact absurd h (by simp)
    · rw [escapeTable_mk_nil] at h
      exact absurd h (by simp)
  · unfold rust_replace_dollar at h
    split at h
    · exact absurd h (by simp)
    · next hguard =>
      have hmem : '$' ∈ r1 :: rest2 := by
        by_contra hnot
        exact hguard ((takeWhile_length_eq_iff _).2 hnot)
      cases List.mem_cons.1 hmem with
      | inl h1 => exact absurd h1.symm hr
      | inr h2 => exact h2

/-- Dead-code lemma for the escape machinery: once any `'$'` occurs in the
scanned string, `rust_scan_replace` fails.  The scan resumes right after the
first character of a decoded token (the iterator is passed to
`rust_replace_dollar` by value), so the closing `'$'` of every token is
re-encountered as an opening one, and the last `'$'` processed has no valid
continuation. -/
theorem scan_none_of_mem_dollar (s : List Char) (hs : '$' ∈ s) :
    rust_scan_replace s = none := by
  cases s with
  | nil => cases hs
  | cons c rest =>
    by_cases hc : c = '_'
    · subst hc
      have hrest : '$' ∈ rest := by
        cases List.mem_cons.1 hs with
        | inl h => exact absurd h (by decide)
        | inr h => exact h
      rw [scan_cons_underscore]
      exact scan_none_of_mem_dollar rest hrest
    · by_cases hd : c = '$'
      · subst hd
        cases rest with
        | nil => exact scan_dollar_nil
        | cons r1 rest2 =>
          rw [scan_dollar_cons]
          cases hrep : rust_replace_dollar (r1 :: rest2) with
          | none => rfl
          | some ch =>
            rw [scan_none_of_mem_dollar rest2 (rust_replace_dollar_some_mem hrep)]
            rfl
      · have hrest : '$' ∈ rest := by
          cases List.mem_cons.1 hs with
          | inl h => exact absurd h.symm hd
          | inr h => exact h
        rw [scan_cons_default hc hd]
        rw [scan_none_of_mem_dollar rest hrest]
        rfl
termination_by s.length

/-- Completeness of the matcher: a string of the decomposed shape is matched
and group 1 is the part before `::h`. -/
theorem rust_match_append (p hx : List Char) (hp : p ≠ [])
    (hpc : ∀ c ∈ p, isIdentChar c = true) (hh : hx.length = 16)
    (hhc : ∀ c ∈ hx, isLowerHex c = true) :
    rust_match (p ++ [':', ':', 'h'] ++ hx) = some p := by
  have hlen : (p ++ [':', ':', 'h'] ++ hx).length = p.length + 19 := by
    simp [List.length_append, hh]
  have h19 : p.length + 19 - 19 = p.length := by omega
  have hassoc : p ++ [':', ':', 'h'] ++ hx = p ++ ([':', ':', 'h'] ++ hx) :=
    List.append_assoc p _ hx
  have hpos : 0 < p.length := List.length_pos.2 hp
  unfold rust_match
  rw [hlen, h19, hassoc]
  rw [List.take_append_of_le_length (Nat.le_refl _), List.take_length]
  rw [List.drop_append_of_le_length (Nat.le_refl _), List.drop_length,
    List.nil_append]
  have h20 : 20 ≤ p.length + 19 := by omega
  simp [h20, List.all_eq_true, hpc, hhc]
  exact ⟨hpc, hhc⟩

/-- Soundness of the matcher: a match decomposes the subject as the pattern
demands, with group 1 the part before `::h`. -/
theorem rust_match_some (l p : List Char) (h : rust_match l = some p) :
    ∃ hx : List Char, l = p ++ [':', ':', 'h'] ++ hx ∧ p ≠ [] ∧
      (∀ c ∈ p, isIdentChar c = true) ∧ hx.length = 16 ∧
      (∀ c ∈ hx, isLowerHex c = true) := by
  unfold rust_match at h
  split at h
  · next hg =>
    injection h with h
    simp only [Bool.and_eq_true, decide_eq_true_eq, List.all_eq_true,
      beq_iff_eq] at hg
    obtain ⟨⟨⟨h20, hall⟩, hmid⟩, hhex⟩ := hg
    have hslen : (l.drop (l.length - 19)).length = 19 := by
      rw [List.length_drop]; omega
    refine ⟨(l.drop (l.length - 19)).drop 3, ?_, ?_, ?_, ?_, ?_⟩
    · have hsplit : l.take (l.length - 19) ++ l.drop (l.length - 19) = l :=
        List.take_append_drop _ l
      have hsplit2 : (l.drop (l.length - 19)).take 3 ++
          (l.drop (l.length - 19)).drop 3 = l.drop (l.length - 19) :=
        List.take_append_drop 3 _
      rw [← h, List.append_assoc, ← hmid, hsplit2, hsplit]
    · have hlt : (l.take (l.length - 19)).length = l.length - 19 := by
        rw [List.length_take]; omega
      intro hnil
      rw [h, hnil] at hlt
      simp at hlt
      omega
    · rw [← h]; exact hall
    · rw [List.length_drop, hslen]
    · exact fun c hc => hhex c hc
  · exact absurd h (by simp)

/-- The matcher accepts exactly the strings satisfying the spec's structural
pattern. -/
theorem rust_match_none_iff (l : List Char) :
    rust_match l = none ↔ ¬ RustIntermediatePattern l := by
  constructor
  · intro hn hpat
    obtain ⟨p, hx, heq, hp, hpc, hh, hhc⟩ := hpat
    rw [heq, rust_match_append p hx hp hpc hh hhc] at hn
    cases hn
  · intro hnp
    cases hm : rust_match l with
    | none => rfl
    | some p =>
      obtain ⟨hx, heq, hp, hpc, hh, hhc⟩ := rust_match_some l p hm
      exact absurd ⟨p, hx, heq, hp, hpc, hh, hhc⟩ hnp

/-- On a `'$'`-free string the scan succeeds and returns the string with
every underscore removed (the `case '_'` arm skips the emit). -/
theorem scan_no_dollar (s : List Char) (h : '$' ∉ s) :
    rust_scan_replace s = some (s.filter (fun c => c ≠ '_')) := by
  induction s with
  | nil => rfl
  | cons c rest ih =>
    have hc : c ≠ '$' := fun e => h (e ▸ List.mem_cons_self c rest)
    have hr : '$' ∉ rest := fun m => h (List.mem_cons_of_mem _ m)
    by_cases hu : c = '_'
    · subst hu
      rw [scan_cons_underscore, ih hr]
      simp [List.filter_cons]
    · rw [scan_cons_default hu hc, ih hr]
      simp [List.filter_cons, hu]

/-! ## Claim theorems -/

/-- C1 (evaluation at the failing input): the token RF between two dollar
signs is in the escape table and rust_replace_dollar maps it to the
ampersand character, yet scanning the prefix a$RF$b fails, and so the whole
fallback demangle of a name whose Itanium decode is a$RF$b::h followed by 16
hex digits returns Failure with empty output — contradicting the claim that
the scan emits the mapped character and resumes after the closing dollar,
decoding the rest of the prefix normally.  (The iterator is passed to
rust_replace_dollar by value, so the scan resumes inside the token and
re-encounters the closing dollar as an opening one.) -/
theorem C1_dollar_token_scan_fails_eval :
    rust_replace_dollar ['R', 'F', '$', 'b'] = some '&' ∧
    rust_scan_replace ['a', '$', 'R', 'F', '$', 'b'] = none ∧
    RustLanguage.DemangleName (fun _ => some "a$RF$b::h0123456789abcdef")
      "x" "" = (kDemangleFailure, "") := by decide

/-- C2 (counterexample): the claim says every underscore in the captured
prefix is emitted unchanged; but scanning the prefix a_b yields ab — the
case for underscore falls out of the switch without emitting, so the
underscore is dropped from the output. -/
theorem C2_underscore_not_emitted_cex :
    rust_scan_replace ['a', '_', 'b'] = some ['a', 'b'] ∧
      rust_scan_replace ['a', '_', 'b'] ≠ some ['a', '_', 'b'] := by decide

/-- C2 (amended): during the scan every underscore is consumed without being
emitted — encountering an underscore just continues with the rest, and on a
dollar-free prefix the decode returns the prefix with all underscores
removed. -/
theorem C2_underscore_dropped :
    (∀ rest : List Char,
        rust_scan_replace ('_' :: rest) = rust_scan_replace rest) ∧
    (∀ s : List Char, '$' ∉ s →
        rust_scan_replace s = some (s.filter (fun c => c ≠ '_'))) :=
  ⟨scan_cons_underscore, scan_no_dollar⟩

/-- C2 (witness for the amended claim at a concrete input). -/
theorem C2_underscore_dropped_witness :
    rust_scan_replace ['a', '_', 'b'] =
      some (['a', '_', 'b'].filter (fun c => c ≠ '_')) :=
  C2_underscore_dropped.2 ['a', '_', 'b'] (by decide)

/-- C3 (evaluation at the failing input): in the preferred Rust path, when
the external demangler returns null the function returns Failure without
clearing the caller's output buffer, so a pre-existing buffer content
"junk" survives a Failure outcome — contradicting the claim that the output
string is left empty on every non-Success outcome. -/
theorem C3_preferred_failure_keeps_buffer_eval :
    RustLanguage.DemangleNameWithRustDemangle (fun _ => none) "m" "junk" =
      (kDemangleFailure, "junk") ∧ "junk" ≠ "" :=
  ⟨rfl, by decide⟩

/-- C4: in the Rust fallback, if the captured prefix contains a dollar sign
whose token (the substring up to the next dollar) is not a key of the escape
table, or with no closing dollar before the end of the string, the whole
decode returns Failure with empty output; in particular a trailing unmatched
dollar yields Failure. -/
theorem C4_bad_token_failure :
    (∀ (cxa : String → Option String) (m d rd : String) (p : List Char),
        cxa m = some rd → rust_match rd.data = some p →
        (∃ i : Fin p.length, p.get i = '$' ∧
          ('$' ∉ p.drop (i.1 + 1) ∨
            escapeTable (String.mk
              ((p.drop (i.1 + 1)).takeWhile (fun c => c ≠ '$'))) = none)) →
        RustLanguage.DemangleName cxa m d = (kDemangleFailure, "")) ∧
    (∀ (cxa : String → Option String) (m d rd : String) (p : List Char),
        cxa m = some rd → rust_match rd.data = some p →
        p.getLast? = some '$' →
        RustLanguage.DemangleName cxa m d = (kDemangleFailure, "")) := by
  constructor
  · rintro cxa m d rd p hcxa hm ⟨i, hi, _⟩
    have hmem : '$' ∈ p := hi ▸ List.get_mem p i.1 i.2
    simp [RustLanguage.DemangleName, hcxa, hm, scan_none_of_mem_dollar p hmem]
  · intro cxa m d rd p hcxa hm hlast
    have hmem : '$' ∈ p := List.mem_of_getLast?_eq_some hlast
    simp [RustLanguage.DemangleName, hcxa, hm, scan_none_of_mem_dollar p hmem]

/-- C4 (witness): a concrete intermediate whose captured prefix a$ ends in
an unmatched dollar; the fallback decode fails with empty output. -/
theorem C4_bad_token_failure_witness :
    RustLanguage.DemangleName (fun _ => some "a$::h0000000000000000")
      "x" "junk" = (kDemangleFailure, "") :=
  C4_bad_token_failure.2 (fun _ => some "a$::h0000000000000000") "x" "junk"
    "a$::h0000000000000000" ['a', '$'] rfl (by decide) (by decide)

/-- C5: after the Itanium step of the Rust fallback succeeds, an
intermediate string not decomposing as one-or-more characters of the class
letters/digits/underscore/dot/colon/dollar, then the literal ::h, then
exactly 16 lowercase hex digits, yields Failure; on a match, only the
captured group 1 (the hash suffix discarded) is fed to the escape scan,
whose outcome alone determines the result. -/
theorem C5_intermediate_pattern_gate :
    (∀ (cxa : String → Option String) (m d rd : String),
        cxa m = some rd → ¬ RustIntermediatePattern rd.data →
        RustLanguage.DemangleName cxa m d = (kDemangleFailure, "")) ∧
    (∀ (cxa : String → Option String) (m d rd : String) (p hx : List Char),
        cxa m = some rd → rd.data = p ++ [':', ':', 'h'] ++ hx → p ≠ [] →
        (∀ c ∈ p, isIdentChar c = true) → hx.length = 16 →
        (∀ c ∈ hx, isLowerHex c = true) →
        RustLanguage.DemangleName cxa m d =
          match rust_scan_replace p with
          | none => (kDemangleFailure, "")
          | some out => (kDemangleSuccess, String.mk out)) := by
  constructor
  · intro cxa m d rd hcxa hnp
    have hm : rust_match rd.data = none := (rust_match_none_iff rd.data).2 hnp
    simp [RustLanguage.DemangleName, hcxa, hm]
  · intro cxa m d rd p hx hcxa heq hp hpc hh hhc
    have hm : rust_match rd.data = some p := by
      rw [heq]
      exact rust_match_append p hx hp hpc hh hhc
    simp [RustLanguage.DemangleName, hcxa, hm]

/-- C5 (witness): a concrete intermediate abc that does not match the
pattern; the fallback decode fails with empty output. -/
theorem C5_intermediate_pattern_gate_witness :
    RustLanguage.DemangleName (fun _ => some "abc") "x" "junk" =
      (kDemangleFailure, "") :=
  C5_intermediate_pattern_gate.1 (fun _ => some "abc") "x" "junk" "abc" rfl
    ((rust_match_none_iff "abc".data).1 (by decide))

/-- C6: the C++ demangle returns Unsupported with cleared output when the
platform demangler is unavailable (Android builds); otherwise it returns
Success with the decoded string on status zero and Failure with cleared
output on any non-zero status. -/
theorem C6_cpp_demangle :
    (∀ m d : String,
        CPPLanguage.DemangleNameAndroid m d = (kDontDemangle, "")) ∧
    (∀ (cxa : String → Option String) (m d out : String),
        cxa m = some out →
        CPPLanguage.DemangleName cxa m d = (kDemangleSuccess, out)) ∧
    (∀ (cxa : String → Option String) (m d : String),
        cxa m = none →
        CPPLanguage.DemangleName cxa m d = (kDemangleFailure, "")) := by
  refine ⟨fun m d => rfl, ?_, ?_⟩
  · intro cxa m d out h
    simp [CPPLanguage.DemangleName, h]
  · intro cxa m d h
    simp [CPPLanguage.DemangleName, h]

/-- C6 (witness): concrete evaluations of the success and the failure case. -/
theorem C6_cpp_demangle_witness :
    CPPLanguage.DemangleName (fun _ => some "ok") "m" "j" =
      (kDemangleSuccess, "ok") ∧
    CPPLanguage.DemangleName (fun _ => none) "m" "j" =
      (kDemangleFailure, "") :=
  ⟨C6_cpp_demangle.2.1 (fun _ => some "ok") "m" "j" "ok" rfl,
   C6_cpp_demangle.2.2 (fun _ => none) "m" "j" rfl⟩

/-- C7: the Swift demangle returns Success and passes the mangled input
through verbatim, for every input string and every prior buffer content. -/
theorem C7_swift_passthrough (s d : String) :
    SwiftLanguage.DemangleName s d = (kDemangleSuccess, s) := rfl

/-- C8: with an empty parent every variant returns the leaf name with no
separator; with a non-empty parent C++ joins with :: and Java, Swift and
Rust join with a dot, while Assembler returns the leaf name regardless of
the parent. -/
theorem C8_make_qualified_name :
    (∀ name : String,
        CPPLanguage.MakeQualifiedName "" name = name ∧
        JavaLanguage.MakeQualifiedName "" name = name ∧
        SwiftLanguage.MakeQualifiedName "" name = name ∧
        RustLanguage.MakeQualifiedName "" name = name ∧
        AssemblerLanguage.MakeQualifiedName "" name = name) ∧
    (∀ parent name : String, parent ≠ "" →
        CPPLanguage.MakeQualifiedName parent name = parent ++ "::" ++ name ∧
        JavaLanguage.MakeQualifiedName parent name = parent ++ "." ++ name ∧
        SwiftLanguage.MakeQualifiedName parent name = parent ++ "." ++ name ∧
        RustLanguage.MakeQualifiedName parent name = parent ++ "." ++ name ∧
        AssemblerLanguage.MakeQualifiedName parent name = name) := by
  constructor
  · intro name
    refine ⟨?_, ?_, ?_, ?_, rfl⟩ <;>
      simp [CPPLanguage.MakeQualifiedName, JavaLanguage.MakeQualifiedName,
        SwiftLanguage.MakeQualifiedName, RustLanguage.MakeQualifiedName,
        MakeQualifiedNameWithSeparator]
  · intro parent name hp
    refine ⟨?_, ?_, ?_, ?_, rfl⟩ <;>
      simp [CPPLanguage.MakeQualifiedName, JavaLanguage.MakeQualifiedName,
        SwiftLanguage.MakeQualifiedName, RustLanguage.MakeQualifiedName,
        MakeQualifiedNameWithSeparator, hp]

/-- C8 (witness): composing A and B under C++ with a non-empty parent. -/
theorem C8_make_qualified_name_witness :
    CPPLanguage.MakeQualifiedName "A" "B" = "A" ++ "::" ++ "B" :=
  (C8_make_qualified_name.2 "A" "B" (by decide)).1

/-- C9 (counterexample): the claim says the preferred Rust path returns
Failure whenever the external demangler does not return a non-empty string;
but when the external demangler returns a non-null empty string the code
returns Success (it only checks for null). -/
theorem C9_empty_string_success_cex :
    RustLanguage.DemangleNameWithRustDemangle (fun _ => some "") "m" "" =
      (kDemangleSuccess, "") ∧
      (kDemangleSuccess : DemangleResult) ≠ kDemangleFailure :=
  ⟨rfl, by decide⟩

/-- C9 (amended): the preferred Rust path returns Success with the returned
string as output exactly when the external demangler returns a string at
all (non-null, possibly empty), and Failure exactly when it returns null. -/
theorem C9_preferred_path :
    (∀ (rdext : String → Option String) (m d out : String),
        rdext m = some out →
        RustLanguage.DemangleNameWithRustDemangle rdext m d =
          (kDemangleSuccess, out)) ∧
    (∀ (rdext : String → Option String) (m d : String),
        rdext m = none →
        RustLanguage.DemangleNameWithRustDemangle rdext m d =
          (kDemangleFailure, d)) := by
  constructor
  · intro rdext m d out h
    simp [RustLanguage.DemangleNameWithRustDemangle, h]
  · intro rdext m d h
    simp [RustLanguage.DemangleNameWithRustDemangle, h]

/-- C9 (witness): concrete evaluations of the non-null and the null case. -/
theorem C9_preferred_path_witness :
    RustLanguage.DemangleNameWithRustDemangle (fun _ => some "ok") "m" "j" =
      (kDemangleSuccess, "ok") ∧
    RustLanguage.DemangleNameWithRustDemangle (fun _ => none) "m" "j" =
      (kDemangleFailure, "j") :=
  ⟨C9_preferred_path.1 (fun _ => some "ok") "m" "j" "ok" rfl,
   C9_preferred_path.2 (fun _ => none) "m" "j" rfl⟩

/-- C10: Init installs a new context built from its arguments and returns
true when no context exists; any call finding an installed context returns
false and leaves that context unchanged. -/
theorem C10_init_once (url token u2 t2 : String)
    (attrs attrs2 : List (String × String)) (c : BacktraceHandlerContext) :
    BacktraceHandler.Init url token attrs none =
      (true, some ⟨url, token, attrs⟩) ∧
    BacktraceHandler.Init u2 t2 attrs2 (some c) = (false, some c) :=
  ⟨rfl, rfl⟩
